import Mathlib

/-!
Verification of the quoting-and-reconciliation engine of the `market2`
market-making robot.  The definitions below are a shallow embedding of
`robot_v2.py`, `market_prices.py`, `trading_helpers.py` and `telegram1.py`:
Python floats are modelled as rationals, Python's `round` as rounding half
towards positive infinity (the two agree on every value appearing in the
claims, where the argument is never a tie), and the stateful control loop as
explicit recursion over a clock value.
-/

/-- Python's built-in `round` to an integer, over `ℚ`: `⌊q + 1/2⌋`, written on
the numerator and denominator so that it evaluates by `rfl`/`decide`. -/
def pyRound (q : ℚ) : ℤ := (2 * q.num + q.den) / (2 * (q.den : ℤ))

/-- Python's `str.upper()`, written structurally over the character list so
that it evaluates inside the kernel; equal to `String.toUpper`. -/
def pyUpper (s : String) : String := String.mk (s.data.map Char.toUpper)

/-- Python's `str.lower()`; equal to `String.toLower`. -/
def pyLower (s : String) : String := String.mk (s.data.map Char.toLower)

theorem pyUpper_eq_toUpper (s : String) : pyUpper s = s.toUpper := by
  rw [pyUpper, String.toUpper, String.map_eq]

theorem pyLower_eq_toLower (s : String) : pyLower s = s.toLower := by
  rw [pyLower, String.toLower, String.map_eq]

theorem pyRound_eq_round (q : ℚ) : pyRound q = round q := by
  have hq : ∀ (n : ℤ) (d : ℕ), d ≠ 0 →
      (n : ℚ) / d + 1 / 2 = ((2 * n + d : ℤ) : ℚ) / ((2 * d : ℕ) : ℚ) := by
    intro n d hd
    have hdq : (d : ℚ) ≠ 0 := Nat.cast_ne_zero.mpr hd
    field_simp
    ring
  have h2 := hq q.num q.den q.den_ne_zero
  rw [Rat.num_div_den] at h2
  rw [round_eq, pyRound, h2, Rat.floor_intCast_div_natCast]
  push_cast
  ring_nf

theorem pyRound_intCast (n : ℤ) : pyRound ((n : ℚ)) = n := by
  rw [pyRound_eq_round]
  exact round_intCast n

/-- Python's `round(x, 2)` on `ℚ`: round to two decimal places. -/
def round2 (q : ℚ) : ℚ := (pyRound (q * 100) : ℚ) / 100

theorem round2_cents (n : ℤ) : round2 ((n : ℚ) / 100) = (n : ℚ) / 100 := by
  rw [round2, div_mul_cancel₀ _ (by norm_num : (100 : ℚ) ≠ 0), pyRound_intCast]

/-- An open order as returned by `trading_helpers.get_open_orders`: the fields
read by `robot_v2.py` (`side`, `price`, `size`, `tokenId`/`token_id`,
`outcome`).  A missing `outcome` tag is the empty string, matching
`order.get("outcome", "")`. -/
structure OpenOrder where
  side : String
  price : ℚ
  size : ℚ
  tokenId : Option String := none
  outcomeTag : String := ""
deriving DecidableEq

/-- A desired quote, the `(side, price, size)` tuple built by `run_robot`
(`robot_v2.py` lines 189-205); sides are the literals `"BUY"`/`"SELL"`. -/
structure DesiredQuote where
  side : String
  price : ℚ
  size : ℚ
deriving DecidableEq

/-- `_has_order` from `robot_v2.py`: an open order matches on upper-cased side
and on price rounded to two decimals; the size is not inspected. -/
def hasOrder (orders : List OpenOrder) (side : String) (price : ℚ) : Bool :=
  orders.any fun o => pyUpper o.side == pyUpper side && round2 o.price == round2 price

/-- The `prices_ok` accumulator of `run_robot` (`robot_v2.py` lines 218-224):
a fold of `&&` over the desired quotes, starting from `True`. -/
def pricesOk (desired : List DesiredQuote) (orders : List OpenOrder) : Bool :=
  desired.foldl (fun acc q => acc && hasOrder orders q.side q.price) true

/-- The order actions a reconciliation cycle can issue through the venue
client: `cancel_all_orders()` and one placement per desired quote. -/
inductive RAction where
  | cancelAll : RAction
  | place : DesiredQuote → RAction
deriving DecidableEq

/-- The reconciliation step of `run_robot` (`robot_v2.py` lines 218-244): if
some desired quote has no matching open order, cancel everything and place
every desired quote; otherwise do nothing. -/
def reconcile (desired : List DesiredQuote) (orders : List OpenOrder) : List RAction :=
  if pricesOk desired orders then [] else RAction.cancelAll :: desired.map RAction.place

/-- The adaptive quoting distance in cents (`robot_v2.py` lines 177-181):
`1` cent unless the spread exceeds one cent, in which case
`int(spread_cents / 2 + 1)`.  In the branch taken `spread_cents ≥ 1`, so
Python's truncating `int` agrees with the floor division used here. -/
def distanceCents (bid ask : ℚ) : ℤ :=
  if ask - bid > 1 / 100 then pyRound ((ask - bid) * 100) / 2 + 1 else 1

/-- `buy_price = round(best_ask - distance, 2)` (`robot_v2.py` line 183). -/
def buyPrice (bid ask : ℚ) : ℚ :=
  round2 (ask - (distanceCents bid ask : ℚ) / 100)

/-- `sell_price = round(best_bid + distance, 2)` (`robot_v2.py` line 184). -/
def sellPrice (bid ask : ℚ) : ℚ :=
  round2 (bid + (distanceCents bid ask : ℚ) / 100)

/-- The `desired` list of `run_robot` (`robot_v2.py` lines 189-205): a BUY
quote sized `volume - no_pos` when `no_pos < volume` and the size is at least
`min_amount`, then a SELL quote sized `no_pos` when `no_pos > 0` and at least
`min_amount`. -/
def desiredQuotes (noPos volume minAmount bp sp : ℚ) : List DesiredQuote :=
  (if noPos < volume ∧ minAmount ≤ volume - noPos
    then [⟨"BUY", bp, volume - noPos⟩] else [])
    ++ (if 0 < noPos ∧ minAmount ≤ noPos then [⟨"SELL", sp, noPos⟩] else [])

/-- The quote computation of one `run_robot` cycle: desired quotes at the
adaptively-distanced buy and sell prices. -/
def robotDesired (noPos volume minAmount bid ask : ℚ) : List DesiredQuote :=
  desiredQuotes noPos volume minAmount (buyPrice bid ask) (sellPrice bid ask)

/-- The lower price clamp of `market_prices.buyNo` (lines 67-69): only prices
below one cent are raised to one cent. -/
def clampLow (p : ℚ) : ℚ := if p < 1 / 100 then 1 / 100 else p

/-- The upper price clamp of `market_prices.sellNo` (lines 130-131): only
prices above 99 cents are lowered to 99 cents. -/
def clampHigh (p : ℚ) : ℚ := if p > 99 / 100 then 99 / 100 else p

/-- The price submitted by `market_prices.buyNo`: `best_ask - x/100`, with
only the lower clamp applied. -/
def buyNoPrice (bestAsk : ℚ) (xCentsBelowAsk : ℤ) : ℚ :=
  clampLow (bestAsk - (xCentsBelowAsk : ℚ) / 100)

/-- The price submitted by `market_prices.sellNo`: `best_bid + x/100`, with
only the upper clamp applied. -/
def sellNoPrice (bestBid : ℚ) (xCentsAboveBid : ℤ) : ℚ :=
  clampHigh (bestBid + (xCentsAboveBid : ℚ) / 100)

/-- Modelled from the spec: `market_prices.buyYes` is imported by
`trading_helpers.py` but its definition is not among the source files.  Per
the spec, a hedge BUY for the complementary outcome is placed the given
number of cents below that outcome's ask, with prices clamped into the valid
range, mirroring `buyNoPrice`. -/
def buyYesPrice (bestAsk : ℚ) (xCentsBelowAsk : ℤ) : ℚ :=
  clampLow (bestAsk - (xCentsBelowAsk : ℚ) / 100)

/-- The order size used by `market_prices.buyNo`/`sellNo` (lines 55-57,
120-121): an explicit size is used unchanged; only when no size is given does
the venue minimum (floored at 2) apply. -/
def orderSize (orderMinSize : ℚ) : Option ℚ → ℚ
  | none => max 2 orderMinSize
  | some s => s

/-- The two outcome tokens of a binary market. -/
inductive HOutcome where
  | yes : HOutcome
  | no : HOutcome
deriving DecidableEq

/-- The lower-case outcome label used in string comparisons. -/
def outcomeLabel : HOutcome → String
  | HOutcome.yes => "yes"
  | HOutcome.no => "no"

/-- A hedge action: `buy_no`/`buy_yes` called with a size and a
`x_cents_below_ask` delta. -/
inductive HAction where
  | placeBuy : HOutcome → ℚ → ℤ → HAction
deriving DecidableEq

/-- The market state read by one invocation of `hedge_once`
(`robot_v2.py` lines 74-114): positions, best asks for both outcomes, the
open orders and the token-to-outcome lookup. -/
structure HedgeState where
  yesPos : ℚ
  noPos : ℚ
  yesAsk : Option ℚ
  noAsk : Option ℚ
  openOrders : List OpenOrder
  tokenOutcomes : List (String × String)
deriving DecidableEq

/-- `_has_buy_order` from `robot_v2.py` (lines 94-104): a BUY-side order whose
token id resolves to the outcome, or whose lower-cased outcome tag equals the
outcome label. -/
def hasBuyOrderFor (st : HedgeState) (outcome : String) : Bool :=
  st.openOrders.any fun o =>
    pyUpper o.side == "BUY" &&
      ((match o.tokenId with
        | some tid => st.tokenOutcomes.lookup tid == some outcome
        | none => false)
        || pyLower o.outcomeTag == outcome)

/-- `hedge_once` from `robot_v2.py` (lines 69-149), as the list of placement
actions it issues: nothing when the positions differ by less than `0.0001` or
an ask is missing; otherwise one corrective BUY for the lighter side, sized by
the imbalance and quoted `round((askMinor - round(1 - askMajor, 2)) * 100)`
cents below the lighter side's ask, unless a BUY for that side is already
open. -/
def hedgeOnce (st : HedgeState) : List HAction :=
  if abs (st.yesPos - st.noPos) < 1 / 10000 then []
  else
    match st.yesAsk, st.noAsk with
    | some yesAsk, some noAsk =>
      if st.noPos < st.yesPos then
        if hasBuyOrderFor st "no" then []
        else
          [HAction.placeBuy HOutcome.no (st.yesPos - st.noPos)
            (pyRound ((noAsk - round2 (1 - yesAsk)) * 100))]
      else if st.yesPos < st.noPos then
        if hasBuyOrderFor st "yes" then []
        else
          [HAction.placeBuy HOutcome.yes (st.noPos - st.yesPos)
            (pyRound ((yesAsk - round2 (1 - noAsk)) * 100))]
      else []
    | _, _ => []

/-- A recent trade as consumed by the notifier loop of `run_robot`
(`robot_v2.py` lines 249-255); only the stringified identifier matters. -/
structure RTrade where
  id : String
deriving DecidableEq

/-- Result of one notifier pass: the identifiers for which
`send_telegram_message` was invoked (in order), the seen-set afterwards, and
whether the pass completed without an exception. -/
structure NotifyResult where
  attempts : List String
  seen : List String
  ok : Bool
deriving DecidableEq

/-- The notifier loop of `run_robot` (`robot_v2.py` lines 249-255).  For each
trade whose identifier is unseen, `send_telegram_message` is invoked BEFORE
the identifier is added to the seen set; `sendOk` tells whether that call
returns normally.  A raising call aborts the pass (the surrounding cycle
handler catches it), leaving the identifier outside the seen set. -/
def notifyStep (sendOk : String → Bool) : List String → List RTrade → NotifyResult
  | seen, [] => ⟨[], seen, true⟩
  | seen, t :: ts =>
    if t.id ∈ seen then notifyStep sendOk seen ts
    else if sendOk t.id then
      let r := notifyStep sendOk (t.id :: seen) ts
      ⟨t.id :: r.attempts, r.seen, r.ok⟩
    else ⟨[t.id], seen, false⟩

/-- `send_telegram_message` from `telegram1.py` raises only when the bot
token or chat id is unset; an HTTP failure status is printed and the function
returns normally. -/
def sendTelegramCompletes (envConfigured : Bool) (httpStatus : ℕ) : Bool :=
  envConfigured || (httpStatus == httpStatus)

/-- Whether a cycle body of `run_robot` finished normally or raised; the
except-clause at `robot_v2.py` line 257 logs the error either way. -/
inductive CycleResult where
  | ok : CycleResult
  | failed : String → CycleResult
deriving DecidableEq

/-- The `while time.time() < end_ts` loop of `run_robot` (`robot_v2.py`
lines 157-260): the deadline is checked at the top of each cycle, the body
runs inside a failure boundary, and the clock then advances by the fixed
60-second sleep.  The returned trace records each cycle's start time and
body result. -/
def runLoop (body : ℕ → CycleResult) (endTs : ℕ) (now : ℕ) : List (ℕ × CycleResult) :=
  if h : now < endTs then (now, body now) :: runLoop body endTs (now + 60) else []
termination_by endTs - now
decreasing_by omega

/-- The open order a resting placement by `buy_no`/`sell_no` becomes: same
side, price and size, on the "No" token of the market. -/
def placedOrder (noTokenId : String) (q : DesiredQuote) : OpenOrder :=
  { side := q.side, price := q.price, size := q.size
    tokenId := some noTokenId, outcomeTag := "" }

/-- The open orders visible to `hedge_once` later in the same `run_robot`
cycle, assuming cancellations and placements take effect at the venue: the
reconciler either left the book alone or replaced it with the desired quotes
on the "No" token. -/
def afterReconcile (noTokenId : String) (desired : List DesiredQuote)
    (orders : List OpenOrder) : List OpenOrder :=
  if pricesOk desired orders then orders else desired.map (placedOrder noTokenId)

/-! Helper lemmas shared by several claims. -/

theorem foldl_and_eq_all {α : Type} (f : α → Bool) (l : List α) (b : Bool) :
    l.foldl (fun acc q => acc && f q) b = (b && l.all f) := by
  induction l generalizing b with
  | nil => simp
  | cons x xs ih => simp [List.foldl_cons, ih, Bool.and_assoc]

theorem pricesOk_eq_all (desired : List DesiredQuote) (orders : List OpenOrder) :
    pricesOk desired orders = desired.all fun q => hasOrder orders q.side q.price := by
  rw [pricesOk, foldl_and_eq_all]
  exact Bool.true_and _

theorem distanceCents_scenario : distanceCents (40 / 100 : ℚ) (46 / 100) = 4 := by
  rw [distanceCents, if_pos (by norm_num : (46 : ℚ) / 100 - 40 / 100 > 1 / 100)]
  rw [show ((46 : ℚ) / 100 - 40 / 100) * 100 = ((6 : ℤ) : ℚ) from by norm_num,
    pyRound_intCast]
  decide

theorem buyPrice_cents (b a : ℤ) :
    buyPrice ((b : ℚ) / 100) ((a : ℚ) / 100) =
      (a : ℚ) / 100 - (distanceCents ((b : ℚ) / 100) ((a : ℚ) / 100) : ℚ) / 100 := by
  rw [buyPrice,
    show (a : ℚ) / 100 - (distanceCents ((b : ℚ) / 100) ((a : ℚ) / 100) : ℚ) / 100 =
      ((a - distanceCents ((b : ℚ) / 100) ((a : ℚ) / 100) : ℤ) : ℚ) / 100 from by
        push_cast; ring,
    round2_cents]

theorem sellPrice_cents (b a : ℤ) :
    sellPrice ((b : ℚ) / 100) ((a : ℚ) / 100) =
      (b : ℚ) / 100 + (distanceCents ((b : ℚ) / 100) ((a : ℚ) / 100) : ℚ) / 100 := by
  rw [sellPrice,
    show (b : ℚ) / 100 + (distanceCents ((b : ℚ) / 100) ((a : ℚ) / 100) : ℚ) / 100 =
      ((b + distanceCents ((b : ℚ) / 100) ((a : ℚ) / 100) : ℤ) : ℚ) / 100 from by
        push_cast; ring,
    round2_cents]

theorem round2_one_sub_cents (n : ℤ) : round2 (1 - (n : ℚ) / 100) = 1 - (n : ℚ) / 100 := by
  rw [show (1 : ℚ) - (n : ℚ) / 100 = ((100 - n : ℤ) : ℚ) / 100 from by push_cast; ring,
    round2_cents]

/-- Claim C1: the reconciler acts if and only if some desired quote has no
open order matching it on side and two-decimal price (size is not part of the
match key); when it acts it cancels all open orders and places every desired
quote, and when every desired quote is satisfied it issues no order calls. -/
theorem reconciler_all_or_nothing (desired : List DesiredQuote) (orders : List OpenOrder) :
    (reconcile desired orders = [] ↔
      ∀ q ∈ desired, hasOrder orders q.side q.price = true)
    ∧ ((∃ q ∈ desired, hasOrder orders q.side q.price = false) →
      reconcile desired orders = RAction.cancelAll :: desired.map RAction.place)
    ∧ (∀ (f : ℚ → ℚ) (s : String) (p : ℚ),
      hasOrder (orders.map fun o => { o with size := f o.size }) s p =
        hasOrder orders s p) := by
  have hiff : pricesOk desired orders = true ↔
      ∀ q ∈ desired, hasOrder orders q.side q.price = true := by
    rw [pricesOk_eq_all, List.all_eq_true]
  refine ⟨?_, ?_, ?_⟩
  · by_cases h : pricesOk desired orders
    · rw [reconcile, if_pos h]
      simp only [true_iff]
      exact hiff.mp h
    · rw [reconcile, if_neg h]
      constructor
      · intro hcons
        exact absurd hcons (by simp)
      · intro hy
        exact absurd (hiff.mpr hy) h
  · rintro ⟨q, hq, hfalse⟩
    have hnot : ¬ pricesOk desired orders = true := by
      intro hok
      rw [hiff.mp hok q hq] at hfalse
      simp at hfalse
    rw [reconcile, if_neg hnot]
  · intro f s p
    rw [hasOrder, hasOrder, List.any_map]
    rfl

/-- Witness for C1: with one desired BUY quote and no open orders, the
reconciler cancels all and places the quote. -/
theorem reconciler_all_or_nothing_witness :
    reconcile [⟨"BUY", 42 / 100, 40⟩] [] =
      [RAction.cancelAll, RAction.place ⟨"BUY", 42 / 100, 40⟩] :=
  (reconciler_all_or_nothing [⟨"BUY", 42 / 100, 40⟩] []).2.1
    ⟨⟨"BUY", 42 / 100, 40⟩, by simp, rfl⟩

/-- Claim C2: on a book with two-decimal prices and a non-negative position,
the desired quotes are exactly a BUY sized `volume - pos` at
`bestAsk - distance` (included iff `pos < volume` and the size is at least
`minAmount`) and a SELL sized `pos` at `bestBid + distance` (included iff
`pos > 0` and `pos ≥ minAmount`), and nothing else. -/
theorem quote_calculator_content (pos volume minAmount : ℚ) (b a : ℤ)
    (hpos : 0 ≤ pos) :
    robotDesired pos volume minAmount ((b : ℚ) / 100) ((a : ℚ) / 100) =
      (if pos < volume ∧ minAmount ≤ volume - pos
        then [⟨"BUY",
          (a : ℚ) / 100 - (distanceCents ((b : ℚ) / 100) ((a : ℚ) / 100) : ℚ) / 100,
          volume - pos⟩]
        else [])
      ++ (if 0 < pos ∧ minAmount ≤ pos
        then [⟨"SELL",
          (b : ℚ) / 100 + (distanceCents ((b : ℚ) / 100) ((a : ℚ) / 100) : ℚ) / 100,
          pos⟩]
        else []) := by
  rw [robotDesired, desiredQuotes, buyPrice_cents, sellPrice_cents]

/-- Witness for C2: the spec scenario (bid 0.40, ask 0.46, pos 0, volume 40,
minimum 5) yields exactly one BUY quote of size 40 at 0.42. -/
theorem quote_calculator_content_witness :
    robotDesired 0 40 5 (40 / 100) (46 / 100) = [⟨"BUY", 42 / 100, 40⟩] := by
  have h := quote_calculator_content 0 40 5 40 46 le_rfl
  rw [show ((40 : ℤ) : ℚ) = 40 from by norm_num,
    show ((46 : ℤ) : ℚ) = 46 from by norm_num] at h
  rw [h, distanceCents_scenario]
  norm_num

/-- Claim C3: on a two-decimal book the quoting distance is
`floor(spreadInTicks / 2) + 1` when the spread exceeds one tick and `1`
otherwise; for bid 0.40 and ask 0.46 it is 4 ticks and the BUY price is
0.42. -/
theorem adaptive_distance (b a : ℤ) :
    (((a : ℚ) / 100 - (b : ℚ) / 100 > 1 / 100) →
      distanceCents ((b : ℚ) / 100) ((a : ℚ) / 100) = ⌊((a - b : ℤ) : ℚ) / 2⌋ + 1)
    ∧ (¬ ((a : ℚ) / 100 - (b : ℚ) / 100 > 1 / 100) →
      distanceCents ((b : ℚ) / 100) ((a : ℚ) / 100) = 1)
    ∧ distanceCents (40 / 100 : ℚ) (46 / 100) = 4
    ∧ buyPrice (40 / 100 : ℚ) (46 / 100) = 42 / 100 := by
  refine ⟨?_, ?_, distanceCents_scenario, ?_⟩
  · intro h
    rw [distanceCents, if_pos h,
      show ((a : ℚ) / 100 - (b : ℚ) / 100) * 100 = ((a - b : ℤ) : ℚ) from by
        push_cast; ring,
      pyRound_intCast]
    have h2 : ⌊((a - b : ℤ) : ℚ) / 2⌋ = (a - b) / 2 := by
      have h3 := Rat.floor_intCast_div_natCast (a - b) 2
      simpa using h3
    rw [h2]
  · intro h
    rw [distanceCents, if_neg h]
  · rw [buyPrice, distanceCents_scenario,
      show (46 : ℚ) / 100 - ((4 : ℤ) : ℚ) / 100 = ((42 : ℤ) : ℚ) / 100 from by norm_num,
      round2_cents]
    norm_num

/-- Witness for C3: the adaptive branch applied at bid 0.40, ask 0.46. -/
theorem adaptive_distance_witness :
    distanceCents (((40 : ℤ) : ℚ) / 100) (((46 : ℤ) : ℚ) / 100) =
      ⌊((46 - 40 : ℤ) : ℚ) / 2⌋ + 1 :=
  (adaptive_distance 40 46).1 (by norm_num)

/-- Claim C4 is refuted: `buyNo` applies no upper clamp, so a computed BUY
price above 0.99 is submitted unchanged instead of becoming 0.99. -/
theorem price_clamp_counterexample :
    (99 / 100 : ℚ) - ((-2 : ℤ) : ℚ) / 100 > 99 / 100
      ∧ buyNoPrice (99 / 100) (-2) ≠ 99 / 100 := by
  constructor
  · norm_num
  · rw [buyNoPrice, clampLow]
    norm_num

/-- Claim C4 as amended: BUY prices are clamped only from below at 0.01 and
SELL prices only from above at 0.99; each one-sided clamp is idempotent, so
every BUY order price is at least 0.01 and every SELL order price is at most
0.99. -/
theorem price_clamp_amended :
    (∀ p : ℚ, clampLow p = max (1 / 100) p)
    ∧ (∀ p : ℚ, clampHigh p = min (99 / 100) p)
    ∧ (∀ p : ℚ, clampLow (clampLow p) = clampLow p)
    ∧ (∀ p : ℚ, clampHigh (clampHigh p) = clampHigh p)
    ∧ (∀ (ask : ℚ) (x : ℤ), buyNoPrice ask x = clampLow (ask - (x : ℚ) / 100))
    ∧ (∀ (bid : ℚ) (x : ℤ), sellNoPrice bid x = clampHigh (bid + (x : ℚ) / 100))
    ∧ (∀ (ask : ℚ) (x : ℤ), 1 / 100 ≤ buyNoPrice ask x)
    ∧ (∀ (bid : ℚ) (x : ℤ), sellNoPrice bid x ≤ 99 / 100) := by
  refine ⟨?_, ?_, ?_, ?_, fun ask x => rfl, fun bid x => rfl, ?_, ?_⟩
  · intro p
    rw [clampLow, max_def]
    split_ifs <;> first | rfl | linarith
  · intro p
    rw [clampHigh, min_def]
    split_ifs <;> first | rfl | linarith
  · intro p
    simp only [clampLow]
    split_ifs <;> first | rfl | linarith
  · intro p
    simp only [clampHigh]
    split_ifs <;> first | rfl | linarith
  · intro ask x
    rw [buyNoPrice, clampLow]
    split_ifs with h
    · exact le_rfl
    · exact not_lt.mp h
  · intro bid x
    rw [sellNoPrice, clampHigh]
    split_ifs with h
    · exact le_rfl
    · exact not_lt.mp h

theorem abs_not_lt_of_le_sub {x y : ℚ} (h : 1 / 10000 ≤ x - y) :
    ¬ abs (x - y) < 1 / 10000 :=
  not_lt.mpr (le_trans h (le_abs_self _))

/-- Claim C5: with both asks present at whole-cent prices, an imbalance of at
least epsilon, and no open BUY for the minor outcome, `hedge_once` places
exactly one BUY for the minor outcome sized by the imbalance, quoted
`round((askMinor - (1 - askMajor)) * 100)` cents below the minor ask, for
both directions; a delta of `d` cents below an ask means a submitted price of
`ask - d/100` whenever that needs no clamping. -/
theorem hedge_corrective_order (st : HedgeState) (a b : ℤ)
    (hya : st.yesAsk = some ((a : ℚ) / 100)) (hna : st.noAsk = some ((b : ℚ) / 100)) :
    (1 / 10000 ≤ st.yesPos - st.noPos → hasBuyOrderFor st "no" = false →
      hedgeOnce st = [HAction.placeBuy HOutcome.no (st.yesPos - st.noPos)
        (pyRound (((b : ℚ) / 100 - (1 - (a : ℚ) / 100)) * 100))])
    ∧ (1 / 10000 ≤ st.noPos - st.yesPos → hasBuyOrderFor st "yes" = false →
      hedgeOnce st = [HAction.placeBuy HOutcome.yes (st.noPos - st.yesPos)
        (pyRound (((a : ℚ) / 100 - (1 - (b : ℚ) / 100)) * 100))])
    ∧ (∀ (ask : ℚ) (d : ℤ), 1 / 100 ≤ ask - (d : ℚ) / 100 →
      buyNoPrice ask d = ask - (d : ℚ) / 100 ∧ buyYesPrice ask d = ask - (d : ℚ) / 100) := by
  refine ⟨?_, ?_, ?_⟩
  · intro hd hbuy
    rw [hedgeOnce, if_neg (abs_not_lt_of_le_sub hd), hya, hna]
    dsimp only
    rw [if_pos (by linarith : st.noPos < st.yesPos), hbuy]
    simp only [Bool.false_eq_true, if_false]
    rw [round2_one_sub_cents]
  · intro hd hbuy
    have hnot : ¬ abs (st.yesPos - st.noPos) < 1 / 10000 := by
      rw [abs_sub_comm]
      exact abs_not_lt_of_le_sub hd
    rw [hedgeOnce, if_neg hnot, hya, hna]
    dsimp only
    rw [if_neg (by linarith : ¬ st.noPos < st.yesPos),
      if_pos (by linarith : st.yesPos < st.noPos), hbuy]
    simp only [Bool.false_eq_true, if_false]
    rw [round2_one_sub_cents]
  · intro ask d hge
    constructor
    · rw [buyNoPrice, clampLow, if_neg (by linarith)]
    · rw [buyYesPrice, clampLow, if_neg (by linarith)]

/-- Witness for C5: the spec scenario, with the "Yes" position 30 shares
heavy, asks 0.46/0.58: one corrective BUY for "No" of size 30 at 4 cents
below the "No" ask. -/
theorem hedge_corrective_order_witness :
    hedgeOnce ⟨30, 0, some (46 / 100), some (58 / 100), [], []⟩ =
      [HAction.placeBuy HOutcome.no 30 4] := by
  have h := (hedge_corrective_order ⟨30, 0, some (46 / 100), some (58 / 100), [], []⟩
    46 58 (by norm_num) (by norm_num)).1 (by norm_num) rfl
  rw [h, show (30 : ℚ) - 0 = 30 from by norm_num,
    show (((58 : ℤ) : ℚ) / 100 - (1 - ((46 : ℤ) : ℚ) / 100)) * 100 = ((4 : ℤ) : ℚ) from by
      push_cast; ring,
    pyRound_intCast]

/-- Claim C6: whenever a BUY order for the minor (underweight) outcome is
already open, `hedge_once` places no order, whatever the imbalance. -/
theorem hedge_skip_when_buy_open (st : HedgeState)
    (h1 : st.noPos < st.yesPos → hasBuyOrderFor st "no" = true)
    (h2 : st.yesPos < st.noPos → hasBuyOrderFor st "yes" = true) :
    hedgeOnce st = [] := by
  rw [hedgeOnce]
  split
  · rfl
  · split
    · by_cases hlt : st.noPos < st.yesPos
      · rw [if_pos hlt, h1 hlt]
        simp
      · rw [if_neg hlt]
        by_cases hlt2 : st.yesPos < st.noPos
        · rw [if_pos hlt2, h2 hlt2]
          simp
        · rw [if_neg hlt2]
    · rfl

/-- Witness for C6: an imbalance of 10 "Yes" shares, but a BUY order tagged
"no" is already open, so the hedge engine does nothing. -/
theorem hedge_skip_when_buy_open_witness :
    hedgeOnce ⟨10, 0, some (1 / 2), some (1 / 2),
      [⟨"BUY", 1 / 2, 5, none, "no"⟩], []⟩ = [] :=
  hedge_skip_when_buy_open _ (fun _ => by decide) (fun h => absurd h (by norm_num))


theorem notifyStep_seen_mem (x : String) (ts : List RTrade) : ∀ seen : List String,
    x ∈ (notifyStep (fun _ => true) seen ts).seen ↔ x ∈ seen ∨ x ∈ ts.map RTrade.id := by
  induction ts with
  | nil =>
    intro seen
    simp [notifyStep]
  | cons t ts ih =>
    intro seen
    by_cases h : t.id ∈ seen
    · rw [notifyStep, if_pos h, ih]
      simp only [List.map_cons, List.mem_cons]
      constructor
      · rintro (hs | hts)
        · exact Or.inl hs
        · exact Or.inr (Or.inr hts)
      · rintro (hs | heq | hts)
        · exact Or.inl hs
        · exact Or.inl (heq ▸ h)
        · exact Or.inr hts
    · rw [notifyStep, if_neg h]
      dsimp only
      rw [if_pos rfl, ih]
      simp only [List.map_cons, List.mem_cons]
      tauto

theorem notifyStep_count (x : String) (ts : List RTrade) : ∀ seen : List String,
    (notifyStep (fun _ => true) seen ts).attempts.count x =
      if x ∈ seen then 0 else if x ∈ ts.map RTrade.id then 1 else 0 := by
  induction ts with
  | nil =>
    intro seen
    simp [notifyStep]
  | cons t ts ih =>
    intro seen
    by_cases h : t.id ∈ seen
    · rw [notifyStep, if_pos h, ih]
      by_cases hx : x ∈ seen
      · simp [hx]
      · have hxt : x ≠ t.id := fun he => hx (he ▸ h)
        simp [hx, hxt]
    · rw [notifyStep, if_neg h]
      dsimp only
      rw [if_pos rfl]
      simp only [List.count_cons, ih (t.id :: seen)]
      by_cases hxt : x = t.id
      · subst hxt
        simp [h]
      · have hmem : (x ∈ t.id :: seen) ↔ x ∈ seen := by simp [hxt]
        simp [hmem, hxt]
        exact fun he => hxt he.symm

/-- Claim C7 is refuted in the raising-failure case: `send_telegram_message`
runs before the identifier is added to the seen set, so a send that raises
leaves the identifier unseen and the same trade is re-attempted by a later
invocation, yielding two sends for one identifier. -/
theorem notifier_failure_counterexample :
    (notifyStep (fun _ => false) [] [⟨"t1"⟩]).seen = []
    ∧ (notifyStep (fun _ => false) [] [⟨"t1"⟩]).attempts = ["t1"]
    ∧ ((notifyStep (fun _ => false) [] [⟨"t1"⟩]).attempts
        ++ (notifyStep (fun _ => true)
          (notifyStep (fun _ => false) [] [⟨"t1"⟩]).seen [⟨"t1"⟩]).attempts).count "t1" = 2 :=
  ⟨rfl, rfl, rfl⟩

/-- Claim C7 as amended: when every send returns normally, feeding the same
identifier across two invocations yields exactly one send (at-most-once per
process run); `send_telegram_message` returns normally for any HTTP status
once the environment is configured, so a delivery failure reported by status
still marks the identifier seen; but a send that raises leaves the
identifier unseen with only that one attempt made, and it is retried by a
later cycle. -/
theorem notifier_dedupe_amended (x : String) (seen : List String) (ts1 ts2 : List RTrade)
    (hnew : x ∉ seen) :
    (((notifyStep (fun _ => true) seen ts1).attempts
        ++ (notifyStep (fun _ => true)
          (notifyStep (fun _ => true) seen ts1).seen ts2).attempts).count x =
      if x ∈ ts1.map RTrade.id ∨ x ∈ ts2.map RTrade.id then 1 else 0)
    ∧ (∀ (t : RTrade) (rest : List RTrade) (s : List String), t.id ∉ s →
      (notifyStep (fun _ => false) s (t :: rest)).seen = s
        ∧ (notifyStep (fun _ => false) s (t :: rest)).attempts = [t.id])
    ∧ (∀ status : ℕ, sendTelegramCompletes true status = true) := by
  refine ⟨?_, ?_, fun status => rfl⟩
  · rw [List.count_append, notifyStep_count, notifyStep_count]
    by_cases h1 : x ∈ ts1.map RTrade.id
    · have hs : x ∈ (notifyStep (fun _ => true) seen ts1).seen :=
        (notifyStep_seen_mem x ts1 seen).mpr (Or.inr h1)
      simp [hnew, h1, hs]
    · have hs : x ∉ (notifyStep (fun _ => true) seen ts1).seen := by
        intro hc
        rcases (notifyStep_seen_mem x ts1 seen).mp hc with hc2 | hc2
        · exact hnew hc2
        · exact h1 hc2
      by_cases h2 : x ∈ ts2.map RTrade.id
      · simp [hnew, h1, h2, hs]
      · simp [hnew, h1, h2, hs]
  · intro t rest s hns
    rw [notifyStep, if_neg hns]
    exact ⟨rfl, rfl⟩

/-- Witness for C7's amended claim: the identifier "t1", fed in both of two
successive invocations starting from an empty seen set, is sent exactly
once. -/
theorem notifier_dedupe_amended_witness :
    ((notifyStep (fun _ => true) [] [⟨"t1"⟩]).attempts
        ++ (notifyStep (fun _ => true)
          (notifyStep (fun _ => true) [] [⟨"t1"⟩]).seen [⟨"t1"⟩]).attempts).count "t1" =
      if "t1" ∈ ([⟨"t1"⟩] : List RTrade).map RTrade.id
          ∨ "t1" ∈ ([⟨"t1"⟩] : List RTrade).map RTrade.id then 1 else 0 :=
  (notifier_dedupe_amended "t1" [] [⟨"t1"⟩] [⟨"t1"⟩] (by simp)).1

/-- Claim C8 is refuted: `hedge_once` sizes its corrective order as the raw
position imbalance with no venue-minimum check, and `buyNo` uses an explicit
size unchanged; with positions 1 vs 0.5 and a venue minimum of 5 an order of
size 0.5 is placed. -/
theorem order_min_size_counterexample :
    hedgeOnce ⟨1, 1 / 2, some (1 / 2), some (1 / 2), [], []⟩ =
      [HAction.placeBuy HOutcome.no (1 / 2) 0]
    ∧ orderSize 5 (some (1 / 2)) = 1 / 2
    ∧ ((1 : ℚ) / 2 < 5) := by
  refine ⟨?_, rfl, by norm_num⟩
  rw [hedgeOnce, if_neg (by rw [abs_lt]; push_neg; intro h; norm_num)]
  dsimp only
  rw [if_pos (by norm_num : (1 : ℚ) / 2 < 1),
    show hasBuyOrderFor ⟨1, 1 / 2, some (1 / 2), some (1 / 2), [], []⟩ "no" = false from rfl]
  simp only [Bool.false_eq_true, if_false]
  rw [show (1 : ℚ) - 1 / 2 = ((50 : ℤ) : ℚ) / 100 from by norm_num, round2_cents,
    show ((1 : ℚ) / 2 - ((50 : ℤ) : ℚ) / 100) * 100 = ((0 : ℤ) : ℚ) from by norm_num,
    pyRound_intCast]
  norm_num

/-- Claim C8 as amended: only an order placed without an explicit size is
sized at the venue minimum (floored at 2); maker quotes are guarded by the
configured `min_amount` parameter, not the venue minimum, and hedge orders
pass the raw imbalance through unchecked. -/
theorem order_size_amended (venueMin minAmount pos volume bp sp : ℚ) :
    (venueMin ≤ orderSize venueMin none)
    ∧ (∀ s : ℚ, orderSize venueMin (some s) = s)
    ∧ (∀ q ∈ desiredQuotes pos volume minAmount bp sp, minAmount ≤ q.size) := by
  refine ⟨le_max_right _ _, fun s => rfl, ?_⟩
  intro q hq
  rw [desiredQuotes] at hq
  rcases List.mem_append.mp hq with h | h
  · by_cases hc : pos < volume ∧ minAmount ≤ volume - pos
    · rw [if_pos hc] at h
      simp only [List.mem_singleton] at h
      rw [h]
      exact hc.2
    · rw [if_neg hc] at h
      simp at h
  · by_cases hc : 0 < pos ∧ minAmount ≤ pos
    · rw [if_pos hc] at h
      simp only [List.mem_singleton] at h
      rw [h]
      exact hc.2
    · rw [if_neg hc] at h
      simp at h

/-- Witness for C8's amended claim at venue minimum 5, `min_amount` 5,
position 0, volume 40. -/
theorem order_size_amended_witness :
    (5 : ℚ) ≤ orderSize 5 none ∧ orderSize 5 (some (1 / 2)) = 1 / 2 ∧ (5 : ℚ) ≤ 40 :=
  ⟨(order_size_amended 5 5 0 40 (42 / 100) (1 / 2)).1,
    (order_size_amended 5 5 0 40 (42 / 100) (1 / 2)).2.1 (1 / 2),
    (order_size_amended 5 5 0 40 (42 / 100) (1 / 2)).2.2 ⟨"BUY", 42 / 100, 40⟩
      (by norm_num [desiredQuotes])⟩

theorem runLoop_unfold (body : ℕ → CycleResult) (endTs now : ℕ) :
    runLoop body endTs now =
      if now < endTs then (now, body now) :: runLoop body endTs (now + 60) else [] := by
  rw [runLoop, dite_eq_ite]

/-- Claim C9: the cycle schedule of the control loop is independent of the
body's failures (every exception is absorbed by the failure boundary), the
loop runs a cycle exactly when the deadline has not passed at the top of the
cycle, every executed cycle starts before the deadline, and consecutive
cycles are separated by the fixed 60-second delay. -/
theorem control_loop_boundary (body other : ℕ → CycleResult) (endTs : ℕ) : ∀ now : ℕ,
    ((runLoop body endTs now).map Prod.fst = (runLoop other endTs now).map Prod.fst)
    ∧ (runLoop body endTs now = [] ↔ endTs ≤ now)
    ∧ (∀ p ∈ runLoop body endTs now, p.1 < endTs)
    ∧ (now < endTs →
      (runLoop body endTs now).map Prod.fst =
        now :: (runLoop body endTs (now + 60)).map Prod.fst) := by
  have key : ∀ (fuel now : ℕ), endTs - now ≤ fuel →
      ((runLoop body endTs now).map Prod.fst = (runLoop other endTs now).map Prod.fst)
      ∧ (runLoop body endTs now = [] ↔ endTs ≤ now)
      ∧ (∀ p ∈ runLoop body endTs now, p.1 < endTs) := by
    intro fuel
    induction fuel with
    | zero =>
      intro now h
      have hnl : ¬ now < endTs := by omega
      rw [runLoop_unfold body, runLoop_unfold other, if_neg hnl, if_neg hnl]
      refine ⟨rfl, ?_, by simp⟩
      simp only [true_iff]
      omega
    | succ n ih =>
      intro now h
      by_cases hlt : now < endTs
      · have hrec := ih (now + 60) (by omega)
        rw [runLoop_unfold body, runLoop_unfold other, if_pos hlt, if_pos hlt]
        refine ⟨?_, ?_, ?_⟩
        · rw [List.map_cons, List.map_cons, hrec.1]
        · constructor
          · intro hc
            exact absurd hc (by simp)
          · intro hc
            exact absurd hlt (by omega)
        · intro p hp
          rcases List.mem_cons.mp hp with hp | hp
          · rw [hp]
            exact hlt
          · exact hrec.2.2 p hp
      · rw [runLoop_unfold body, runLoop_unfold other, if_neg hlt, if_neg hlt]
        refine ⟨rfl, ?_, by simp⟩
        simp only [true_iff]
        omega
  intro now
  refine ⟨(key (endTs - now) now le_rfl).1, (key (endTs - now) now le_rfl).2.1,
    (key (endTs - now) now le_rfl).2.2, ?_⟩
  intro hlt
  rw [runLoop_unfold body, if_pos hlt, List.map_cons]

/-- Witness for C9: with a deadline of 120 seconds, a body that always raises
still gets a first cycle at time 0 and a second at time 60; with the deadline
already passed, no cycle runs. -/
theorem control_loop_boundary_witness :
    ((runLoop (fun _ => CycleResult.failed "net") 120 0).map Prod.fst =
      0 :: (runLoop (fun _ => CycleResult.failed "net") 120 60).map Prod.fst)
    ∧ runLoop (fun _ => CycleResult.ok) 50 60 = [] :=
  ⟨(control_loop_boundary (fun _ => CycleResult.failed "net")
      (fun _ => CycleResult.ok) 120 0).2.2.2 (by decide),
    (control_loop_boundary (fun _ => CycleResult.ok)
      (fun _ => CycleResult.ok) 50 60).2.1.mpr (by decide)⟩

theorem hedge_no_buy_when_open (st : HedgeState)
    (hbuy : hasBuyOrderFor st "no" = true) :
    ∀ (sz : ℚ) (d : ℤ), HAction.placeBuy HOutcome.no sz d ∉ hedgeOnce st := by
  intro sz d hmem
  rw [hedgeOnce] at hmem
  split at hmem
  · simp at hmem
  · split at hmem
    · split at hmem
      · simp [hbuy] at hmem
      · split at hmem
        · split at hmem
          · simp at hmem
          · simp at hmem
        · simp at hmem
    · simp at hmem

/-- Claim C10: once the reconciler has placed (or left resting) a maker BUY
order on the "No" token, the hedge engine invoked later in the same cycle
never places a corrective BUY toward the "No" outcome: its guard matches any
open BUY order resolving to that outcome, including the bot's own maker
quote; and whenever the reconciler replaced orders and a BUY quote was
desired, such an order is indeed among the resulting open orders. -/
theorem maker_quote_blocks_hedge (yesPos noPos : ℚ) (yesAsk noAsk : Option ℚ)
    (lookup : List (String × String)) (noTok : String)
    (desired : List DesiredQuote) (orders : List OpenOrder)
    (hlook : lookup.lookup noTok = some "no") :
    ((∃ o ∈ afterReconcile noTok desired orders,
        pyUpper o.side = "BUY" ∧ o.tokenId = some noTok) →
      ∀ (sz : ℚ) (d : ℤ), HAction.placeBuy HOutcome.no sz d ∉
        hedgeOnce ⟨yesPos, noPos, yesAsk, noAsk,
          afterReconcile noTok desired orders, lookup⟩)
    ∧ (pricesOk desired orders = false →
      (∃ q ∈ desired, pyUpper q.side = "BUY") →
      ∃ o ∈ afterReconcile noTok desired orders,
        pyUpper o.side = "BUY" ∧ o.tokenId = some noTok) := by
  constructor
  · intro hex
    have hbuy : hasBuyOrderFor
        ⟨yesPos, noPos, yesAsk, noAsk, afterReconcile noTok desired orders, lookup⟩
        "no" = true := by
      rcases hex with ⟨o, ho, hside, htok⟩
      rw [hasBuyOrderFor, List.any_eq_true]
      refine ⟨o, ho, ?_⟩
      rw [htok]
      simp [hside, hlook]
    exact hedge_no_buy_when_open _ hbuy
  · rintro hpk ⟨q, hq, hside⟩
    refine ⟨placedOrder noTok q, ?_, hside, rfl⟩
    rw [afterReconcile, if_neg (by simp [hpk])]
    exact List.mem_map_of_mem _ hq

/-- Witness for C10: after the reconciler replaces the book with the desired
BUY quote on the "No" token "T", the hedge step places nothing toward "No"
even with a 30-share imbalance. -/
theorem maker_quote_blocks_hedge_witness :
    HAction.placeBuy HOutcome.no 30 4 ∉
      hedgeOnce ⟨30, 0, some (46 / 100), some (58 / 100),
        afterReconcile "T" [⟨"BUY", 42 / 100, 40⟩] [], [("T", "no")]⟩ :=
  (maker_quote_blocks_hedge 30 0 (some (46 / 100)) (some (58 / 100))
      [("T", "no")] "T" [⟨"BUY", 42 / 100, 40⟩] [] rfl).1
    ((maker_quote_blocks_hedge 30 0 (some (46 / 100)) (some (58 / 100))
        [("T", "no")] "T" [⟨"BUY", 42 / 100, 40⟩] [] rfl).2 rfl
      ⟨⟨"BUY", 42 / 100, 40⟩, by simp, by decide⟩) 30 4
